import Mathlib

/-!
Verification of the roman_notebooks support scripts.

Shallow embedding of the numerical and control logic of:
* content/notebooks/pandeia/tgt_vis.py   (class compute_visibility)
* content/notebooks/pandeia/rbt.py       (class background)
* content/notebooks/background_visualization_tool/rbvt.py (_make_violin_source)
* shared/notebook_data_dependencies_rev1.py (download_parallel_with_progress)
* notebooks/footprint_visualization/footprint_utils.py (get_survey_maps_uri)
* content/notebooks/open_universe_file_converter/oufac.py (class FitsToAsdf)

Real numbers produced by the scripts (angles, background radiances,
thresholds) are modelled as rationals; raw IEEE-754 doubles read from the
binary background cache are modelled as their uninterpreted 8-byte slices.
-/

/-! ## tgt_vis.py : compute_visibility -/

/-- The field-of-regard lower limit set in compute_visibility.__init__:
self.min_sun_angle = (90. - 36.) * u.deg. -/
def min_sun_angle : ℚ := 90 - 36

/-- The field-of-regard upper limit set in compute_visibility.__init__:
self.max_sun_angle = (90. + 36.) * u.deg. -/
def max_sun_angle : ℚ := 90 + 36

/-- compute_visibility.get_good_angles, for one target: given the angular
separations between the Sun and the target at each sampled time (in degrees,
as produced by self.sun_coord.separation(target_coordinates)), computes
good_angles = (sun_angle >= self.min_sun_angle) & (sun_angle <= self.max_sun_angle). -/
def get_good_angles (sun_angle : List ℚ) : List Bool :=
  sun_angle.map (fun s => decide (min_sun_angle ≤ s) && decide (s ≤ max_sun_angle))

/-- compute_visibility.get_good_angles loops over self.targets_coordinates and
computes the good_angles row independently for each target; this is that loop,
taking one separation series per target. -/
def get_good_angles_all (separations : List (List ℚ)) : List (List Bool) :=
  separations.map get_good_angles

/-! ## rbt.py : background.make_bathtub -/

/-- One step of scipy.interpolate.interp1d with kind=linear over the knot list:
walk the (x, y) pairs to the segment containing w and interpolate linearly.
For w below the first knot the first segment is extrapolated backwards and for
w above the last knot the value of the last knot is kept; rbt.py only calls
this with bounds_error=True, so those cases never arise for the claims. -/
def interp1dSegs : List (ℚ × ℚ) → ℚ → ℚ
  | [], _ => 0
  | [(_, y)], _ => y
  | (x0, y0) :: (x1, y1) :: rest, w =>
    if w ≤ x1 then y0 + (y1 - y0) * (w - x0) / (x1 - x0)
    else interp1dSegs ((x1, y1) :: rest) w

/-- interp1d(wave_array, row, bounds_error=True)(wavelength) for one row of a
2-D background array (scipy interpolates each row along the last axis). -/
def interp1d_at (wave_array row : List ℚ) (w : ℚ) : ℚ :=
  interp1dSegs (wave_array.zip row) w

/-- np.min over a 1-D array, as a fold; rbt.py only applies it to the
per-calendar-day array total_thiswave, which is nonempty in normal operation
(np.min raises on an empty array). -/
def npmin : List ℚ → ℚ
  | [] => 0
  | x :: xs => xs.foldl min x

/-- The fields of self.bkg_data used by background.make_bathtub: the common
wavelength grid and the per-calendar-day total background rows. -/
structure BkgData where
  wave_array : List ℚ
  total_bg : List (List ℚ)

/-- The fields of self.bathtub populated by background.make_bathtub that the
claims are about. -/
structure Bathtub where
  wavelength : ℚ
  themin : ℚ
  good_days : Nat
  total_thiswave : List ℚ

/-- background.make_bathtub: interpolate each total-background row at the
requested wavelength, take themin = np.min(total_thiswave) and
good_days = int(np.sum(total_thiswave < themin * self.thresh)). -/
def make_bathtub (bd : BkgData) (thresh wavelength : ℚ) : Bathtub :=
  let total_thiswave := bd.total_bg.map (fun row => interp1d_at bd.wave_array row wavelength)
  let themin := npmin total_thiswave
  { wavelength := wavelength
    themin := themin
    good_days := total_thiswave.countP (fun y => decide (y < themin * thresh))
    total_thiswave := total_thiswave }

/-! ## rbt.py : background.read_bkg_data

The binary cache file is modelled as a list of bytes. Raw doubles are kept as
their uninterpreted 8-byte slices (the claims are about the record layout, not
about IEEE-754 decoding); the i4 date_map entries are decoded as little-endian
two complement 32-bit integers, which is what np.frombuffer does on the
little-endian platforms the notebooks run on. -/

/-- Little-endian value of a byte list (first byte least significant). -/
def decodeLE (bs : List Nat) : Nat :=
  bs.foldr (fun b acc => b + 256 * acc) 0

/-- Signed little-endian int32, as np.frombuffer decodes an i4 field. -/
def decodeI32 (bs : List Nat) : Int :=
  let u := decodeLE bs
  if u < 2 ^ 31 then (u : Int) else (u : Int) - 2 ^ 32

/-- Bytes [off, off+len) of a buffer. -/
def byteSlice (file : List Nat) (off len : Nat) : List Nat :=
  (file.drop off).take len

/-- Offset of the pix_ra field in nonzodi_pix_dtype (first field, f8). -/
def pix_ra_offset : Nat := 0

/-- Offset of the pix_dec field: after one f8. -/
def pix_dec_offset : Nat := pix_ra_offset + 8

/-- Offset of the upos field: after pix_ra and pix_dec, two f8. -/
def upos_offset : Nat := pix_dec_offset + 8

/-- Offset of the nonzodi_bg field: after upos, three packed f8. -/
def nonzodi_bg_offset : Nat := upos_offset + 3 * 8

/-- Offset of the iday_index field: after nonzodi_bg, sl_abs_nwave packed f8. -/
def iday_index_offset (nwave : Nat) : Nat := nonzodi_bg_offset + 8 * nwave

/-- nonzodi_pix_dtype.itemsize: numpy packs the unaligned dtype, so the item
size is the sum of the field sizes, ending with the 366 i4 of iday_index. -/
def nonzodi_pix_itemsize (nwave : Nat) : Nat := iday_index_offset nwave + 4 * 366

/-- zodi_sl_dtype.itemsize: two packed f8 arrays of sl_abs_nwave entries. -/
def zodi_sl_itemsize (nwave : Nat) : Nat := 8 * nwave + 8 * nwave

/-- The iday_index entry for day d, decoded from the header record. -/
def date_map_entry (nwave : Nat) (file : List Nat) (d : Nat) : Int :=
  decodeI32 (byteSlice file (iday_index_offset nwave + 4 * d) 4)

/-- The parsed contents of one background cache file, as assembled by
background.read_bkg_data: the header fields, the decoded date_map, the
calendar of legal days, and the raw per-day zodi and stray-light records. -/
structure BkgFileRaw where
  pix_ra : List Nat
  pix_dec : List Nat
  upos : List Nat
  nonzodi_bg : List Nat
  date_map : List Int
  calendar : List Nat
  zodi_bg : List (List Nat)
  stray_light_bg : List (List Nat)

/-- background.read_bkg_data: np.frombuffer(count=1, offset=0) splits the
header according to nonzodi_pix_dtype; calendar = np.where(date_map >= 0)[0];
np.frombuffer(offset=nonzodi_pix_dtype.itemsize) then yields the per-day
records, of which rows 0..Ndays-1 are used, one per calendar day. The
subsequent spectral steps (interpolate_spec onto the thermal grid and
modify_background) map each row to a row and so keep one row per calendar
day; the raw byte rows are retained here. -/
def read_bkg_data (nwave : Nat) (file : List Nat) : BkgFileRaw :=
  let date_map := (List.range 366).map (fun d => date_map_entry nwave file d)
  let calendar := (List.range 366).filter (fun d => decide (0 ≤ date_map_entry nwave file d))
  let nDays := calendar.length
  { pix_ra := byteSlice file pix_ra_offset 8
    pix_dec := byteSlice file pix_dec_offset 8
    upos := byteSlice file upos_offset (3 * 8)
    nonzodi_bg := byteSlice file nonzodi_bg_offset (8 * nwave)
    date_map := date_map
    calendar := calendar
    zodi_bg := (List.range nDays).map (fun dd =>
      byteSlice file (nonzodi_pix_itemsize nwave + zodi_sl_itemsize nwave * dd) (8 * nwave))
    stray_light_bg := (List.range nDays).map (fun dd =>
      byteSlice file (nonzodi_pix_itemsize nwave + zodi_sl_itemsize nwave * dd + 8 * nwave)
        (8 * nwave)) }

/-! ## rbvt.py : _make_violin_source -/

/-- np.argmin for a list of rationals: index of the first least element
(np.argmin returns the first occurrence in case of ties); 0 on the empty
array, which np.argmin rejects. -/
def npargminGo (i bi : Nat) (bv : ℚ) : List ℚ → Nat
  | [] => bi
  | x :: xs => if x < bv then npargminGo (i + 1) i x xs else npargminGo (i + 1) bi bv xs

/-- np.argmin over a list. -/
def npargmin : List ℚ → Nat
  | [] => 0
  | x :: xs => npargminGo 1 0 x xs

/-- np.percentile with the default linear interpolation method: the q-th
percentile of the samples is the value at fractional position q/100 * (n-1)
in the ascending sort of the samples, interpolating linearly between adjacent
order statistics. -/
def nppercentile (s : List ℚ) (q : ℚ) : ℚ :=
  let ss := s.mergeSort (fun a b => decide (a ≤ b))
  let pos : ℚ := q * ((ss.length : ℚ) - 1) / 100
  let i : Nat := (Rat.floor pos).toNat
  let frac : ℚ := pos - (Rat.floor pos : ℚ)
  ss.getD i 0 + frac * (ss.getD (i + 1) (ss.getD i 0) - ss.getD i 0)

/-- Column idx of the total-background matrix, total_bg_matrix[:, idx].
Matrix entries are Option rationals: none models a non-finite float
(np.isfinite false), some v a finite value v. -/
def violinColumn (total_bg_matrix : List (List (Option ℚ))) (idx : Nat) : List (Option ℚ) :=
  total_bg_matrix.map (fun row => row.getD idx none)

/-- samples[np.isfinite(samples) & (samples > 0)]: keep the finite, strictly
positive entries of the column. -/
def finitePositive (col : List (Option ℚ)) : List ℚ :=
  col.filterMap (fun s => s.bind (fun v => if 0 < v then some v else none))

/-- idx = int(np.argmin(np.abs(wave_arr - center_wave))) in
_make_violin_source. -/
def violinIdx (wave_arr : List ℚ) (center_wave : ℚ) : Nat :=
  npargmin (wave_arr.map (fun w => |w - center_wave|))

/-- The samples local of _make_violin_source: column idx of the matrix,
restricted to its finite strictly positive entries. -/
def violinSamples (total_bg_matrix : List (List (Option ℚ))) (wave_arr : List ℚ)
    (center_wave : ℚ) : List ℚ :=
  finitePositive (violinColumn total_bg_matrix (violinIdx wave_arr center_wave))

/-- The percentile component of _make_violin_source in rbvt.py: select the
column whose wavelength is nearest center_wave, filter the samples to the
finite strictly positive ones, and return np.percentile(samples,
[0, 25, 50, 75, 100]) when at least 5 samples remain and (np.nan,)*5 (here:
five none) otherwise. The patch outline (a Gaussian kernel density estimate
in log10 space) is plot geometry that no claim mentions and involves
transcendental floats, so it is not modelled. -/
def make_violin_quartiles (total_bg_matrix : List (List (Option ℚ))) (wave_arr : List ℚ)
    (center_wave : ℚ) :
    Option ℚ × Option ℚ × Option ℚ × Option ℚ × Option ℚ :=
  let samples := violinSamples total_bg_matrix wave_arr center_wave
  if samples.length < 5 then (none, none, none, none, none)
  else (some (nppercentile samples 0), some (nppercentile samples 25),
    some (nppercentile samples 50), some (nppercentile samples 75),
    some (nppercentile samples 100))

/-! ## notebook_data_dependencies_rev1.py : download_parallel_with_progress -/

/-- The min_size_for_parallel default of download_parallel_with_progress:
50 * 1024 * 1024 bytes (50MB). -/
def min_size_for_parallel : Nat := 50 * 1024 * 1024

/-- workers = max(1, min(int(workers), 32)). -/
def clampWorkers (workers : Nat) : Nat := max 1 (min workers 32)

/-- part_size = int(math.ceil(total / workers)), the exact ceiling for the
integer totals and worker counts that arise (Content-Length and a clamped
worker count). -/
def part_size (total workers : Nat) : Nat := (total + workers - 1) / workers

/-- One entry of the ranges list: (i, start, end) in the Python code; the
field named end there is called stop here because end is a Lean keyword. -/
structure ByteRange where
  idx : Nat
  start : Nat
  stop : Nat
deriving DecidableEq, Repr

/-- The ranges loop of download_parallel_with_progress:
for i in range(workers): start = i * part_size;
end = min(start + part_size - 1, total - 1); break when start > end,
else append (i, start, end). The fuel argument is the remaining loop count
and i the current index. -/
def buildRangesGo (total p : Nat) : Nat → Nat → List ByteRange
  | 0, _ => []
  | fuel + 1, i =>
    if min (i * p + p - 1) (total - 1) < i * p then []
    else ⟨i, i * p, min (i * p + p - 1) (total - 1)⟩ :: buildRangesGo total p fuel (i + 1)

/-- The ranges list built by download_parallel_with_progress once the
parallel path is taken, including the worker clamping that precedes it. -/
def downloadRanges (total workers : Nat) : List ByteRange :=
  buildRangesGo total (part_size total (clampWorkers workers)) (clampWorkers workers) 0

/-- Substring test on character lists, modelling the Python in operator on
strings. -/
def charListContains (pat : List Char) : List Char → Bool
  | [] => pat.isEmpty
  | c :: cs => pat.isPrefixOf (c :: cs) || charListContains pat cs

/-- Python pat in s for strings. -/
def strContains (s pat : String) : Bool := charListContains pat.data s.data

/-- Python str.lower(), character by character. -/
def pyLower (s : String) : String := String.mk (s.data.map Char.toLower)

/-- Python str.upper(), character by character. -/
def pyUpper (s : String) : String := String.mk (s.data.map Char.toUpper)

/-- How download_parallel_with_progress decides to fetch the file. -/
inductive DownloadPlan where
  | singleStream
  | parallelRanges (ranges : List ByteRange)
deriving DecidableEq, Repr

/-- The control flow of download_parallel_with_progress before any bytes are
fetched: contentLength is the parsed Content-Length header (none when missing
or non-numeric, and a 0 length is also falsy in the not total test);
accept_ranges_header is the raw Accept-Ranges header value. It falls back to
the single-stream download_with_progress unless the size is known, at least
min_size_for_parallel, and byte ranges are not ruled out; otherwise it builds
the ranges list. -/
def downloadPlan (contentLength : Option Nat) (accept_ranges_header : String)
    (workers : Nat) : DownloadPlan :=
  let accept_ranges := pyLower accept_ranges_header
  match contentLength with
  | none => .singleStream
  | some total =>
    if total < min_size_for_parallel then .singleStream
    else if accept_ranges ≠ "" ∧ strContains accept_ranges "bytes" = false then .singleStream
    else .parallelRanges (downloadRanges total workers)

/-- Worker threads created by the chosen plan: the single-stream path runs in
the calling thread, the parallel path submits len(ranges) range downloads to
ThreadPoolExecutor(max_workers=len(ranges)). -/
def threadsCreated : DownloadPlan → Nat
  | .singleStream => 0
  | .parallelRanges rs => rs.length

/-! ## footprint_utils.py : get_survey_maps_uri -/

/-- The outcome of a get_survey_maps_uri call: a returned path string, a
raised ValueError, or the implicit Python return None reached by falling off
the end of the function body. -/
inductive SurveyMapsResult where
  | path (file_name : String)
  | valueError (msg : String)
  | nonePath
deriving DecidableEq, Repr

/-- allowed_surveys in get_survey_maps_uri. -/
def allowed_surveys : List String := ["HLTDS", "HLWAS", "GBTDS", "GPS"]

/-- allowed_bands in get_survey_maps_uri. -/
def allowed_bands : List String :=
  ["F062", "F087", "F106", "F129", "F146", "F158", "F184", "F213", "PRISM", "GRISM"]

/-- allowed_hlwas_tier in get_survey_maps_uri. -/
def allowed_hlwas_tier : List String :=
  ["ALL", "DEEP", "WIDE", "MEDIUM", "ULTRA-DEEP", "ULTRADEEP"]

/-- The tier dispatch of the HLWAS branch of get_survey_maps_uri, i.e. the
body of its else arm, entered only when a tier argument was passed. -/
def hlwasTierDispatch (survey_name band tier : String) : SurveyMapsResult :=
  if (allowed_hlwas_tier.contains (pyUpper tier)) = false then
    .valueError "The requested tier name is not available, please try ALL, DEEP, WIDE, MEDIUM, or ULTRA-DEEP"
  else if pyUpper tier = "WIDE" then
    if pyUpper band ≠ "F158" then .valueError "HLWAS-WIDE only available for F158"
    else .path ("./aux_data/map_" ++ pyUpper survey_name ++ "-" ++ pyLower tier ++ "_"
      ++ pyUpper band ++ ".hsp")
  else if pyUpper tier = "MEDIUM" then
    if ["F106", "F129", "F158"].contains (pyUpper band) then
      .path ("./aux_data/map_" ++ pyUpper survey_name ++ "-" ++ pyLower tier ++ "_F158.hsp")
    else if pyUpper band = "GRISM" then
      .path ("./aux_data/map_" ++ pyUpper survey_name ++ "-" ++ pyLower tier ++ "_GRISM.hsp")
    else
      .valueError ("The requested element " ++ pyUpper band ++ " is not available for HLWAS-MEDIUM")
  else if pyUpper tier = "DEEP" then
    if ["F087", "F106", "F129", "F158", "F184", "F213"].contains (pyUpper band) then
      .path ("./aux_data/map_" ++ pyUpper survey_name ++ "-" ++ pyLower tier ++ "_F213.hsp")
    else if pyUpper band = "F146" then
      .path ("./aux_data/map_" ++ pyUpper survey_name ++ "-" ++ pyLower tier ++ "_"
        ++ pyUpper band ++ ".hsp")
    else if pyUpper band = "GRISM" then
      .path ("./aux_data/map_" ++ pyUpper survey_name ++ "-" ++ pyLower tier ++ "_"
        ++ pyUpper band ++ ".hsp")
    else
      .valueError ("The requested element " ++ pyUpper band ++ " is not available for HLWAS-DEEP")
  else if pyUpper tier = "ULTRADEEP" ∨ pyUpper tier = "ULTRA-DEEP" then
    let tier2 := if tier = "ULTRA-DEEP" then "ULTRADEEP" else tier
    if ["F106", "F129", "F158"].contains (pyUpper band) then
      .path ("./aux_data/map_" ++ pyUpper survey_name ++ "-" ++ pyLower tier2 ++ "_F158.hsp")
    else
      .valueError ("The requested element " ++ pyUpper band
        ++ " is not available for HLWAS-ULTRADEEP")
  else if pyUpper tier = "ALL" then
    if ["F087", "F184", "F213"].contains (pyUpper band) then
      .path "./aux_data/map_HLWAS-deep_F213.hsp"
    else if pyUpper band = "F146" then .path "./aux_data/map_HLWAS-deep_F146.hsp"
    else if pyUpper band = "F158" then .path "./aux_data/map_HLWAS-all_F158.hsp"
    else if pyUpper band = "GRISM" then .path "./aux_data/map_HLWAS-all_GRISM.hsp"
    else if ["F106", "F129"].contains (pyUpper band) then
      .path "./aux_data/map_HLWAS-all_F106.hsp"
    else .valueError ("The selected element " ++ band ++ " is not available for HLWAS")
  else .nonePath

/-- get_survey_maps_uri in footprint_utils.py, translated branch for branch.
In the HLWAS arm with tier=None the Python code issues a warning and assigns
tier = ALL, but the whole tier dispatch sits inside the else arm of the
if tier is None test, so control falls off the end of the function and Python
returns None; that path is rendered as nonePath. The GBTDS PRISM test and the
GPS F146 test compare band without upper-casing, exactly as the source does. -/
def get_survey_maps_uri (survey_name band : String) (tier : Option String) : SurveyMapsResult :=
  if (allowed_surveys.contains (pyUpper survey_name)) = false then
    .valueError "The requested survey is not one of the Community defined surveys"
  else if (allowed_bands.contains (pyUpper band)) = false then
    .valueError "The requested filter element is not available on WFI"
  else if pyUpper survey_name = "GBTDS" then
    if band = "PRISM" then .valueError "No PRISM component available for the GBTDS"
    else .path ("./aux_data/map_" ++ pyUpper survey_name ++ "_" ++ pyUpper band ++ ".hsp")
  else if pyUpper survey_name = "GPS" then
    if band = "F146" then .valueError "No F146 component available for the GPS"
    else .path ("./aux_data/map_" ++ pyUpper survey_name ++ "_" ++ pyUpper band ++ ".hsp")
  else if pyUpper survey_name = "HLWAS" then
    match tier with
    | none => .nonePath
    | some t => hlwasTierDispatch survey_name band t
  else if pyUpper survey_name = "HLTDS" then
    if pyUpper band = "F184" then
      .path ("./aux_data/map_" ++ pyUpper survey_name ++ "-deep_" ++ pyUpper band ++ ".hsp")
    else if pyUpper band = "F062" then
      .path ("./aux_data/map_" ++ pyUpper survey_name ++ "-wide_" ++ pyUpper band ++ ".hsp")
    else if ["PRISM", "F158", "F129", "F106", "F087"].contains (pyUpper band) then
      .path ("./aux_data/map_" ++ pyUpper survey_name ++ "-deep+wide_" ++ pyUpper band ++ ".hsp")
    else .valueError ("The requested element " ++ pyUpper band ++ " is not available for HLTDS")
  else .nonePath

/-! ## rbt.py : background.write_bathtub -/

/-- One durable file written by a script: its name and its content, the
content being the header lines followed by one (calendar day, total
background) row per day. Numeric row formatting is kept as the values
themselves. -/
structure TextFileWrite where
  name : String
  header_text : List String
  rows : List (Nat × ℚ)

/-- background.write_bathtub: opens bathtub_file for writing, writes the
header lines and then, for i, calendar_day in enumerate(calendar), one line
with calendar_day and self.bathtub.total_thiswave[i]. The result is the list
of durable writes the call performs. -/
def write_bathtub (version cache_version : String) (ra dec wavelength : ℚ)
    (calendar : List Nat) (total_thiswave : List ℚ) (bathtub_file : String) :
    List TextFileWrite :=
  [{ name := bathtub_file
     header_text :=
       ["# Output of roman_backgrounds version " ++ version ++ "\n",
        "# background cache version " ++ cache_version ++ "\n",
        "\n# for RA=" ++ toString ra ++ ", DEC=" ++ toString dec ++ " at wavelength="
          ++ toString wavelength ++ " micron \n",
        "# Columns: \n",
        "# - Calendar day (Jan1=0) \n",
        "# - Total background (MJy/sr)\n"]
     rows := calendar.enum.map (fun p => (p.2, total_thiswave.getD p.1 0)) }]

/-! ## oufac.py : FitsToAsdf -/

/-- A FITS header: the card list of hdul[1].header. astropy always returns a
Header object (never None) when fits.open or fits.getheader succeeds. -/
structure FitsHeader where
  cards : List (String × String)
deriving DecidableEq, Repr

/-- The parts of an opened FITS file that FitsToAsdf reads: the header of
HDU 1 and the data blocks of HDUs 1, 2 and 3. -/
structure FitsFile where
  header1 : FitsHeader
  data1 : List ℚ
  err2 : List ℚ
  dq3 : List ℚ

/-- A Python argument that may or may not be a str, for the
isinstance(self.fitspath, str) test in FitsToAsdf.__init__. -/
inductive PyStrOrOther where
  | str (s : String)
  | other

/-- The attributes of a FitsToAsdf object set in __init__ and updated by
read_s3bucket, build_gwcs and fetch_catalogs. The wcs is determined by the
FITS header it was built from, so it is modelled by that header. -/
structure FitsToAsdf where
  fitspath : String
  file_in_s3 : Bool
  lazy_load : Bool
  data : Option (List ℚ)
  err : Option (List ℚ)
  dq : Option (List ℚ)
  wcs : Option FitsHeader
  catalogs : Option Unit
  fitsheader : Option FitsHeader

/-- A Python exception as raised by the oufac.py code paths: ValueError and
NotImplementedError are raised by FitsToAsdf itself, libraryError stands for
any exception propagated from an underlying library call such as fits.open. -/
inductive PyError where
  | valueError (msg : String)
  | notImplementedError (msg : String)
  | libraryError (msg : String)
deriving DecidableEq, Repr

/-- The NotImplementedError message of FitsToAsdf.__init__. -/
def fits_init_not_implemented : String :=
  "Expected path to FITS file. No other mode available yet."

/-- The ValueError message of FitsToAsdf.fitsheader_to_dict. -/
def fitsheader_to_dict_error : String :=
  "self.fitsheader is empty, please load the header first"

/-- The ValueError message of FitsToAsdf.build_gwcs. -/
def build_gwcs_error : String := "self.fitsheader is empty!"

/-- The ValueError message of the metadata branch of FitsToAsdf.write. -/
def write_header_empty_error : String :=
  "self.fitsheader is empty. Please load a FITS header."

/-- FitsToAsdf.read_s3bucket: open the FITS file (fitsOpen models
fits.open and may fail with a library exception) and populate
self.fitsheader, and when load_data also self.data, self.err and self.dq. -/
def FitsToAsdf.read_s3bucket (fitsOpen : String → Except String FitsFile)
    (self : FitsToAsdf) (load_data : Bool) : Except PyError FitsToAsdf :=
  match fitsOpen self.fitspath with
  | .error m => .error (.libraryError m)
  | .ok f =>
    if load_data then
      .ok { self with
        fitsheader := some f.header1
        data := some f.data1
        err := some f.err2
        dq := some f.dq3 }
    else
      .ok { self with fitsheader := some f.header1 }

/-- FitsToAsdf.__init__: set every data attribute to None, then, for a str
path, load from S3 via read_s3bucket(load_data=not lazy_load), or open the
local file (fully when not lazy_load, header-only via fits.getheader when
lazy_load); for a non-str argument raise NotImplementedError. -/
def FitsToAsdf.init (fitsOpen : String → Except String FitsFile)
    (fitspath : PyStrOrOther) (file_in_s3 lazy_load : Bool) :
    Except PyError FitsToAsdf :=
  match fitspath with
  | .other => .error (.notImplementedError fits_init_not_implemented)
  | .str p =>
    let st0 : FitsToAsdf :=
      { fitspath := p, file_in_s3 := file_in_s3, lazy_load := lazy_load,
        data := none, err := none, dq := none, wcs := none, catalogs := none,
        fitsheader := none }
    if file_in_s3 then
      st0.read_s3bucket fitsOpen (!lazy_load)
    else if !lazy_load then
      match fitsOpen p with
      | .error m => .error (.libraryError m)
      | .ok f =>
        .ok { st0 with
          fitsheader := some f.header1
          data := some f.data1
          err := some f.err2
          dq := some f.dq3 }
    else
      match fitsOpen p with
      | .error m => .error (.libraryError m)
      | .ok f => .ok { st0 with fitsheader := some f.header1 }

/-- FitsToAsdf.fitsheader_to_dict: return the header as a plain dictionary,
or raise ValueError when self.fitsheader is None. -/
def FitsToAsdf.fitsheader_to_dict (self : FitsToAsdf) :
    Except PyError (List (String × String)) :=
  match self.fitsheader with
  | some h => .ok h.cards
  | none => .error (.valueError fitsheader_to_dict_error)

/-- FitsToAsdf.build_gwcs: raise ValueError when self.fitsheader is None,
else set self.wcs = wcs_from_fits_header(self.fitsheader). -/
def FitsToAsdf.build_gwcs (self : FitsToAsdf) : Except PyError FitsToAsdf :=
  match self.fitsheader with
  | none => .error (.valueError build_gwcs_error)
  | some h => .ok { self with wcs := some h }

/-- FitsToAsdf.fetch_catalogs: builds the wcs if missing, then queries the
catalog files and stores the result; the catalog contents are external data,
so only the attribute update is modelled. -/
def FitsToAsdf.fetch_catalogs (self : FitsToAsdf) : Except PyError FitsToAsdf :=
  match (if self.wcs = none then self.build_gwcs else .ok self) with
  | .error e => .error e
  | .ok st => .ok { st with catalogs := some () }

/-- FitsToAsdf.write: reload the data blocks when self.data is None, build
the wcs and fetch the catalogs when missing, then populate the metadata from
self.fitsheader, raising ValueError when it is None. The returned state is
the object after the implied reloads. -/
def FitsToAsdf.write (fitsOpen : String → Except String FitsFile)
    (self : FitsToAsdf) : Except PyError FitsToAsdf :=
  match (if self.data = none then self.read_s3bucket fitsOpen true else .ok self) with
  | .error e => .error e
  | .ok st1 =>
    match (if st1.wcs = none then st1.build_gwcs else .ok st1) with
    | .error e => .error e
    | .ok st2 =>
      match (if st2.catalogs = none then st2.fetch_catalogs else .ok st2) with
      | .error e => .error e
      | .ok st3 =>
        match st3.fitsheader with
        | some _ => .ok st3
        | none => .error (.valueError write_header_empty_error)

/-! ## Helper lemmas -/

theorem foldl_min_le_init (xs : List ℚ) (x : ℚ) : xs.foldl min x ≤ x := by
  induction xs generalizing x with
  | nil => simp
  | cons a as ih =>
    simpa using le_trans (ih (min x a)) (min_le_left x a)

theorem foldl_min_le_mem (xs : List ℚ) (x : ℚ) :
    ∀ y ∈ xs, xs.foldl min x ≤ y := by
  induction xs generalizing x with
  | nil => simp
  | cons a as ih =>
    intro y hy
    rcases List.mem_cons.mp hy with rfl | hy
    · simpa using le_trans (foldl_min_le_init as (min x y)) (min_le_right x y)
    · simpa using ih (min x a) y hy

theorem foldl_min_mem (xs : List ℚ) (x : ℚ) :
    xs.foldl min x = x ∨ xs.foldl min x ∈ xs := by
  induction xs generalizing x with
  | nil => simp
  | cons a as ih =>
    rcases ih (min x a) with h | h
    · rcases min_cases x a with ⟨hm, _⟩ | ⟨hm, _⟩
      · left; simpa [hm] using h
      · right; rw [List.foldl_cons, h, hm]; exact List.mem_cons_self a as
    · right; exact List.mem_cons_of_mem a (by simpa using h)

theorem npmin_le (l : List ℚ) : ∀ y ∈ l, npmin l ≤ y := by
  cases l with
  | nil => simp
  | cons a as =>
    intro y hy
    rcases List.mem_cons.mp hy with rfl | hy
    · exact foldl_min_le_init as y
    · exact foldl_min_le_mem as a y hy

theorem npmin_mem (l : List ℚ) (h : l ≠ []) : npmin l ∈ l := by
  cases l with
  | nil => exact absurd rfl h
  | cons a as =>
    rcases foldl_min_mem as a with hm | hm
    · simp [npmin, hm]
    · exact List.mem_cons_of_mem a (by simpa [npmin] using hm)

/-! ## Claim theorems -/

/-- C2: for every list of target coordinates and every sampled time,
compute_visibility.get_good_angles records good_angles as true exactly when
the angular separation between the Sun and the target at that time is at
least 54 degrees (90 - 36) and at most 126 degrees (90 + 36), inclusive on
both ends. -/
theorem get_good_angles_true_iff (separations : List (List ℚ)) (t i : Nat)
    (ht : t < separations.length)
    (hi : i < (separations.getD t []).length) :
    (((get_good_angles_all separations).getD t []).getD i false = true) ↔
      (54 ≤ (separations.getD t []).getD i 0 ∧ (separations.getD t []).getD i 0 ≤ 126) := by
  have hlen : t < (get_good_angles_all separations).length := by
    simpa [get_good_angles_all] using ht
  rw [List.getD_eq_getElem (separations) [] ht] at hi ⊢
  rw [List.getD_eq_getElem _ [] hlen]
  have h1 : (get_good_angles_all separations)[t] = get_good_angles separations[t] := by
    simp [get_good_angles_all]
  rw [h1]
  have hi2 : i < (get_good_angles separations[t]).length := by
    simpa [get_good_angles] using hi
  rw [List.getD_eq_getElem _ false hi2, List.getD_eq_getElem _ 0 hi]
  have h2 : (get_good_angles separations[t])[i] =
      (decide (min_sun_angle ≤ separations[t][i]) && decide (separations[t][i] ≤ max_sun_angle)) := by
    simp [get_good_angles]
  rw [h2]
  have hmin : min_sun_angle = 54 := by norm_num [min_sun_angle]
  have hmax : max_sun_angle = 126 := by norm_num [max_sun_angle]
  rw [hmin, hmax]
  simp

/-- Witness for C2 at the concrete separation series [[60]]: a 60 degree
separation is inside the field of regard. -/
theorem get_good_angles_true_iff_witness :
    ((((get_good_angles_all [[(60 : ℚ)]]).getD 0 []).getD 0 false = true) ↔
      (54 ≤ ([[(60 : ℚ)]].getD 0 []).getD 0 0 ∧ ([[(60 : ℚ)]].getD 0 []).getD 0 0 ≤ 126)) :=
  get_good_angles_true_iff [[(60 : ℚ)]] 0 0 (by simp) (by simp)

/-- C3: for every background object and wavelength w inside the range of the
wave_array, make_bathtub sets themin to the minimum over all calendar days of
the linearly interpolated total background at w, and good_days to the number
of calendar days whose interpolated total background at w is strictly less
than thresh times that minimum. -/
theorem make_bathtub_spec (bd : BkgData) (thresh w : ℚ)
    (hne : bd.total_bg ≠ [])
    (hlo : bd.wave_array.getD 0 0 ≤ w)
    (hhi : w ≤ bd.wave_array.getLastD 0) :
    (make_bathtub bd thresh w).themin ∈
        bd.total_bg.map (fun row => interp1d_at bd.wave_array row w) ∧
    (∀ row ∈ bd.total_bg,
        (make_bathtub bd thresh w).themin ≤ interp1d_at bd.wave_array row w) ∧
    (make_bathtub bd thresh w).good_days =
      (bd.total_bg.filter (fun row =>
        decide (interp1d_at bd.wave_array row w <
          (make_bathtub bd thresh w).themin * thresh))).length := by
  have hmapne : bd.total_bg.map (fun row => interp1d_at bd.wave_array row w) ≠ [] := by
    simpa using hne
  refine ⟨?_, ?_, ?_⟩
  · simpa [make_bathtub] using
      npmin_mem (bd.total_bg.map (fun row => interp1d_at bd.wave_array row w)) hmapne
  · intro row hrow
    exact npmin_le _ _ (List.mem_map_of_mem (fun row => interp1d_at bd.wave_array row w) hrow)
  · simp only [make_bathtub, List.countP_map]
    rw [List.countP_eq_length_filter]
    rfl

/-- Witness for C3 at a concrete two-day background: wave grid [1, 2], rows
[10, 20] and [30, 40], threshold 11/10, wavelength 3/2. -/
theorem make_bathtub_spec_witness :
    (make_bathtub ⟨[1, 2], [[10, 20], [30, 40]]⟩ (11/10) (3/2)).themin ∈
        [[(10 : ℚ), 20], [30, 40]].map (fun row => interp1d_at [1, 2] row (3/2)) ∧
    (∀ row ∈ [[(10 : ℚ), 20], [30, 40]],
        (make_bathtub ⟨[1, 2], [[10, 20], [30, 40]]⟩ (11/10) (3/2)).themin ≤
          interp1d_at [1, 2] row (3/2)) ∧
    (make_bathtub ⟨[1, 2], [[10, 20], [30, 40]]⟩ (11/10) (3/2)).good_days =
      ([[(10 : ℚ), 20], [30, 40]].filter (fun row =>
        decide (interp1d_at [1, 2] row (3/2) <
          (make_bathtub ⟨[1, 2], [[10, 20], [30, 40]]⟩ (11/10) (3/2)).themin * (11/10)))).length :=
  make_bathtub_spec ⟨[1, 2], [[10, 20], [30, 40]]⟩ (11/10) (3/2) (by simp)
    (by norm_num [List.getD]) (by norm_num [List.getLastD])

/-! ### oufac.py lemmas -/

theorem read_s3bucket_ok_header (fitsOpen : String → Except String FitsFile)
    (st st2 : FitsToAsdf) (load_data : Bool)
    (h : st.read_s3bucket fitsOpen load_data = .ok st2) :
    ∃ hd, st2.fitsheader = some hd := by
  unfold FitsToAsdf.read_s3bucket at h
  cases hop : fitsOpen st.fitspath with
  | error m => rw [hop] at h; cases h
  | ok f =>
    rw [hop] at h
    cases load_data with
    | true =>
      simp only [if_true, Except.ok.injEq] at h
      exact ⟨f.header1, by rw [← h]⟩
    | false =>
      simp only [Bool.false_eq_true, if_false, Except.ok.injEq] at h
      exact ⟨f.header1, by rw [← h]⟩

theorem read_s3bucket_error_library (fitsOpen : String → Except String FitsFile)
    (st : FitsToAsdf) (load_data : Bool) (e : PyError)
    (h : st.read_s3bucket fitsOpen load_data = .error e) :
    ∃ m, e = .libraryError m := by
  unfold FitsToAsdf.read_s3bucket at h
  cases hop : fitsOpen st.fitspath with
  | error m =>
    rw [hop] at h
    exact ⟨m, by cases h; rfl⟩
  | ok f =>
    rw [hop] at h
    cases load_data <;> simp_all

theorem gwcs_step_ok (st : FitsToAsdf) (hd : FitsHeader) (h : st.fitsheader = some hd) :
    ∃ st2, (if st.wcs = none then st.build_gwcs else .ok st) = .ok st2 ∧
      st2.fitsheader = some hd := by
  by_cases hw : st.wcs = none
  · rw [if_pos hw]
    refine ⟨{ st with wcs := some hd }, ?_, ?_⟩
    · simp [FitsToAsdf.build_gwcs, h]
    · simpa using h
  · rw [if_neg hw]
    exact ⟨st, rfl, h⟩

theorem fetch_step_ok (st : FitsToAsdf) (hd : FitsHeader) (h : st.fitsheader = some hd) :
    ∃ st2, (if st.catalogs = none then st.fetch_catalogs else .ok st) = .ok st2 ∧
      st2.fitsheader = some hd := by
  by_cases hc : st.catalogs = none
  · rw [if_pos hc]
    obtain ⟨stg, hg, hgh⟩ := gwcs_step_ok st hd h
    refine ⟨{ stg with catalogs := some () }, ?_, ?_⟩
    · unfold FitsToAsdf.fetch_catalogs
      rw [hg]
    · simpa using hgh
  · rw [if_neg hc]
    exact ⟨st, rfl, h⟩

theorem write_no_header_error (fitsOpen2 : String → Except String FitsFile)
    (st : FitsToAsdf) (hd : FitsHeader) (h : st.fitsheader = some hd) :
    st.write fitsOpen2 ≠ .error (.valueError write_header_empty_error) := by
  unfold FitsToAsdf.write
  split
  next e h1 =>
    have he : ∃ m, e = .libraryError m := by
      by_cases hdata : st.data = none
      · exact read_s3bucket_error_library fitsOpen2 st true e (by rw [if_pos hdata] at h1; exact h1)
      · rw [if_neg hdata] at h1; cases h1
    obtain ⟨m, rfl⟩ := he
    simp
  next st1 h1 =>
    have hh1 : ∃ hd1, st1.fitsheader = some hd1 := by
      by_cases hdata : st.data = none
      · exact read_s3bucket_ok_header fitsOpen2 st st1 true (by rw [if_pos hdata] at h1; exact h1)
      · rw [if_neg hdata] at h1
        cases h1
        exact ⟨hd, h⟩
    obtain ⟨hd1, hh1⟩ := hh1
    obtain ⟨st2, h2, hh2⟩ := gwcs_step_ok st1 hd1 hh1
    obtain ⟨st3, h3, hh3⟩ := fetch_step_ok st2 hd1 hh2
    split
    next e heq => rw [h2] at heq; cases heq
    next st2a heq =>
      rw [h2] at heq
      cases heq
      split
      next e heq2 => rw [h3] at heq2; cases heq2
      next st3a heq2 =>
        rw [h3] at heq2
        cases heq2
        simp [hh3]

theorem init_ok_header (fitsOpen : String → Except String FitsFile)
    (fitspath : PyStrOrOther) (file_in_s3 lazy_load : Bool) (st : FitsToAsdf)
    (h : FitsToAsdf.init fitsOpen fitspath file_in_s3 lazy_load = .ok st) :
    ∃ hd, st.fitsheader = some hd := by
  cases fitspath with
  | other => simp [FitsToAsdf.init] at h
  | str p =>
    cases file_in_s3 with
    | true =>
      simp only [FitsToAsdf.init, if_true] at h
      exact read_s3bucket_ok_header fitsOpen _ st (!lazy_load) h
    | false =>
      cases lazy_load with
      | false =>
        simp only [FitsToAsdf.init, Bool.not_false, Bool.false_eq_true, if_false, if_true] at h
        cases hop : fitsOpen p with
        | error m => rw [hop] at h; cases h
        | ok f =>
          rw [hop] at h
          cases h
          exact ⟨f.header1, rfl⟩
      | true =>
        simp only [FitsToAsdf.init, Bool.not_true, Bool.false_eq_true, if_false] at h
        cases hop : fitsOpen p with
        | error m => rw [hop] at h; cases h
        | ok f =>
          rw [hop] at h
          cases h
          exact ⟨f.header1, rfl⟩

/-- C9: after FitsToAsdf.__init__ returns without raising, self.fitsheader is
not None, so the fitsheader-is-empty ValueError branches of
fitsheader_to_dict, build_gwcs and write are unreachable on any successfully
constructed object. -/
theorem fitsheader_some_after_init (fitsOpen : String → Except String FitsFile)
    (fitspath : PyStrOrOther) (file_in_s3 lazy_load : Bool) (st : FitsToAsdf)
    (h : FitsToAsdf.init fitsOpen fitspath file_in_s3 lazy_load = .ok st) :
    st.fitsheader ≠ none ∧
    st.fitsheader_to_dict ≠ .error (.valueError fitsheader_to_dict_error) ∧
    st.build_gwcs ≠ .error (.valueError build_gwcs_error) ∧
    ∀ fitsOpen2, st.write fitsOpen2 ≠ .error (.valueError write_header_empty_error) := by
  obtain ⟨hd, hh⟩ := init_ok_header fitsOpen fitspath file_in_s3 lazy_load st h
  refine ⟨by simp [hh], ?_, ?_, ?_⟩
  · simp [FitsToAsdf.fitsheader_to_dict, hh]
  · simp [FitsToAsdf.build_gwcs, hh]
  · intro fitsOpen2
    exact write_no_header_error fitsOpen2 st hd hh

/-- Witness for C9: a one-card FITS file opened lazily from S3. -/
theorem fitsheader_some_after_init_witness :
    ((FitsToAsdf.init (fun _ => .ok ⟨⟨[("FILTER", "F158")]⟩, [], [], []⟩)
        (.str "s3://bucket/file.fits") true true).isOk = true) ∧
    (∀ st, FitsToAsdf.init (fun _ => .ok ⟨⟨[("FILTER", "F158")]⟩, [], [], []⟩)
        (.str "s3://bucket/file.fits") true true = .ok st →
      st.fitsheader ≠ none ∧
      st.fitsheader_to_dict ≠ .error (.valueError fitsheader_to_dict_error) ∧
      st.build_gwcs ≠ .error (.valueError build_gwcs_error) ∧
      ∀ fitsOpen2, st.write fitsOpen2 ≠ .error (.valueError write_header_empty_error)) := by
  constructor
  · rfl
  · intro st h
    exact fitsheader_some_after_init _ _ _ _ st h

/-- C5 counterexample: the repository code itself raises a ValueError for an
unknown survey name, so errors are not signalled only via print statements
and exceptions propagated from underlying libraries: get_survey_maps_uri
constructs and raises this exception in its own body
(footprint_utils.py line 207). -/
theorem get_survey_maps_uri_raises_own_exception :
    get_survey_maps_uri "FOO" "F158" none =
      .valueError "The requested survey is not one of the Community defined surveys" := by
  decide

/-- C5 (amended): invalid inputs are signalled by print statements, by
exceptions propagated from underlying libraries, and by exceptions the
repository functions raise themselves; in particular get_survey_maps_uri
raises ValueError for every survey name outside the allowed survey list. -/
theorem get_survey_maps_uri_invalid_survey (survey_name band : String) (tier : Option String)
    (h : allowed_surveys.contains (pyUpper survey_name) = false) :
    get_survey_maps_uri survey_name band tier =
      .valueError "The requested survey is not one of the Community defined surveys" := by
  unfold get_survey_maps_uri
  rw [h]
  simp

/-- Witness for the amended C5 at the unknown survey name FOO. -/
theorem get_survey_maps_uri_invalid_survey_witness :
    get_survey_maps_uri "FOO" "GRISM" (some "DEEP") =
      .valueError "The requested survey is not one of the Community defined surveys" :=
  get_survey_maps_uri_invalid_survey "FOO" "GRISM" (some "DEEP") (by decide)

/-- C8: requesting the HLWAS survey with tier=None does not return the
all-tiers map path; the function assigns tier = ALL but the tier dispatch
lives in the else arm of the if tier is None test, so the call falls off the
end of the function body and returns None, contradicting both the docstring
(which promises a str) and the warning text it just printed. -/
theorem get_survey_maps_uri_hlwas_none_tier :
    get_survey_maps_uri "HLWAS" "F158" none = .nonePath := by
  decide

/-- C7 counterexample: background.write_bathtub performs a durable write, so
it is not the case that no operation of any script writes data to durable
storage. -/
theorem write_bathtub_writes_nonempty :
    write_bathtub "no_version_info" "R2025.9" 180 0 (184/100) [100] [3]
      "background_versus_day.txt" ≠ [] := by
  simp [write_bathtub]

/-- C7 (amended): the scripts operate on transient in-memory arrays, but some
operations do write durable output; in particular background.write_bathtub
writes exactly one text file, named by its bathtub_file argument, whose rows
list each calendar day with the total background interpolated for it. -/
theorem write_bathtub_single_file (version cache_version : String) (ra dec wavelength : ℚ)
    (calendar : List Nat) (total_thiswave : List ℚ) (bathtub_file : String) :
    (write_bathtub version cache_version ra dec wavelength calendar total_thiswave
      bathtub_file).length = 1 ∧
    ∀ fw ∈ write_bathtub version cache_version ra dec wavelength calendar total_thiswave
      bathtub_file,
      fw.name = bathtub_file ∧ fw.rows.length = calendar.length ∧
      ∀ k, k < calendar.length →
        fw.rows.getD k (0, 0) = (calendar.getD k 0, total_thiswave.getD k 0) := by
  refine ⟨rfl, ?_⟩
  intro fw hfw
  simp only [write_bathtub, List.mem_singleton] at hfw
  subst hfw
  refine ⟨rfl, by simp, ?_⟩
  intro k hk
  have hk2 : k < (calendar.enum.map
      (fun p => (p.2, total_thiswave.getD p.1 0))).length := by
    simpa using hk
  rw [List.getD_eq_getElem _ _ hk2, List.getElem_map, List.getD_eq_getElem _ _ hk]
  simp [List.getElem_enum]

/-- Witness for the amended C7 at a concrete two-day calendar. -/
theorem write_bathtub_single_file_witness :
    (write_bathtub "no_version_info" "R2025.9" 180 0 (184/100) [100, 101] [3, 4]
      "background_versus_day.txt").length = 1 ∧
    ∀ fw ∈ write_bathtub "no_version_info" "R2025.9" 180 0 (184/100) [100, 101] [3, 4]
      "background_versus_day.txt",
      fw.name = "background_versus_day.txt" ∧ fw.rows.length = [100, 101].length ∧
      ∀ k, k < [100, 101].length →
        fw.rows.getD k (0, 0) = ([100, 101].getD k 0, [(3 : ℚ), 4].getD k 0) :=
  write_bathtub_single_file "no_version_info" "R2025.9" 180 0 (184/100) [100, 101] [3, 4]
    "background_versus_day.txt"

/-! ### download_parallel_with_progress lemmas -/

theorem buildRangesGo_length_le (total p : Nat) :
    ∀ (fuel i : Nat), (buildRangesGo total p fuel i).length ≤ fuel := by
  intro fuel
  induction fuel with
  | zero => intro i; simp [buildRangesGo]
  | succ f ih =>
    intro i
    unfold buildRangesGo
    split
    · simp
    · simpa using ih (i + 1)

theorem clampWorkers_le_32 (w : Nat) : clampWorkers w ≤ 32 := by
  simp only [clampWorkers]
  omega

theorem clampWorkers_pos (w : Nat) : 1 ≤ clampWorkers w := by
  simp only [clampWorkers]
  omega

theorem downloadRanges_length_le (total w : Nat) : (downloadRanges total w).length ≤ 32 :=
  le_trans (buildRangesGo_length_le total (part_size total (clampWorkers w)) (clampWorkers w) 0)
    (clampWorkers_le_32 w)

theorem downloadRanges_length_pos (total w : Nat) :
    1 ≤ (downloadRanges total w).length := by
  unfold downloadRanges
  obtain ⟨f, hf⟩ : ∃ f, clampWorkers w = f + 1 :=
    ⟨clampWorkers w - 1, by have := clampWorkers_pos w; omega⟩
  rw [hf]
  unfold buildRangesGo
  split
  next hlt => omega
  next => simp

theorem downloadPlan_parallel_inv (cl : Option Nat) (ar : String) (w : Nat)
    (rs : List ByteRange) (h : downloadPlan cl ar w = .parallelRanges rs) :
    ∃ total, cl = some total ∧ min_size_for_parallel ≤ total ∧
      rs = downloadRanges total w := by
  cases cl with
  | none => simp [downloadPlan] at h
  | some total =>
    simp only [downloadPlan] at h
    by_cases h1 : total < min_size_for_parallel
    · rw [if_pos h1] at h; cases h
    · rw [if_neg h1] at h
      by_cases h2 : pyLower ar ≠ "" ∧ strContains (pyLower ar) "bytes" = false
      · rw [if_pos h2] at h; cases h
      · rw [if_neg h2] at h
        cases h
        exact ⟨total, rfl, by omega, rfl⟩

/-- C4 counterexample: with a 50MB Content-Length and a server advertising
byte ranges, download_parallel_with_progress submits 8 range downloads to a
thread pool, so it is not the case that no operation of any script creates
additional threads. -/
theorem download_creates_threads :
    threadsCreated (downloadPlan (some (50 * 1024 * 1024)) "bytes" 8) ≠ 0 := by
  decide

/-- C4 (amended): all scripts run single-threaded and synchronously except
download_parallel_with_progress in the shared dependency installer, which
creates one worker thread per byte range - between 1 and 32 - whenever the
server reports a Content-Length of at least min_size_for_parallel and does
not rule out byte ranges, and creates no additional threads otherwise. -/
theorem download_plan_threads (contentLength : Option Nat) (accept_ranges_header : String)
    (workers : Nat) :
    threadsCreated (downloadPlan contentLength accept_ranges_header workers) ≤ 32 ∧
    (contentLength = none →
      threadsCreated (downloadPlan contentLength accept_ranges_header workers) = 0) ∧
    (∀ total, contentLength = some total → total < min_size_for_parallel →
      threadsCreated (downloadPlan contentLength accept_ranges_header workers) = 0) ∧
    (∀ total, contentLength = some total → min_size_for_parallel ≤ total →
      (pyLower accept_ranges_header = "" ∨
        strContains (pyLower accept_ranges_header) "bytes" = true) →
      1 ≤ threadsCreated (downloadPlan contentLength accept_ranges_header workers)) := by
  refine ⟨?_, ?_, ?_, ?_⟩
  · cases hp : downloadPlan contentLength accept_ranges_header workers with
    | singleStream => simp [threadsCreated]
    | parallelRanges rs =>
      obtain ⟨total, _, _, hrs⟩ := downloadPlan_parallel_inv _ _ _ _ hp
      simpa [threadsCreated, hrs] using downloadRanges_length_le total workers
  · intro hcl
    subst hcl
    simp [downloadPlan, threadsCreated]
  · intro total hcl hsmall
    subst hcl
    simp [downloadPlan, if_pos hsmall, threadsCreated]
  · intro total hcl hbig hbytes
    subst hcl
    have h1 : ¬ total < min_size_for_parallel := by omega
    have h2 : ¬ (pyLower accept_ranges_header ≠ "" ∧
        strContains (pyLower accept_ranges_header) "bytes" = false) := by
      rcases hbytes with hb | hb
      · intro hc; exact hc.1 hb
      · intro hc; rw [hb] at hc; simp at hc
    simp only [downloadPlan, if_neg h1, if_neg h2, threadsCreated]
    exact downloadRanges_length_pos total workers

/-- Witness for the amended C4: a 50MB download with byte ranges available
and the default eight workers. -/
theorem download_plan_threads_witness :
    threadsCreated (downloadPlan (some (50 * 1024 * 1024)) "bytes" 8) ≤ 32 ∧
    (some (50 * 1024 * 1024) = (none : Option Nat) →
      threadsCreated (downloadPlan (some (50 * 1024 * 1024)) "bytes" 8) = 0) ∧
    (∀ total, some (50 * 1024 * 1024) = some total → total < min_size_for_parallel →
      threadsCreated (downloadPlan (some (50 * 1024 * 1024)) "bytes" 8) = 0) ∧
    (∀ total, some (50 * 1024 * 1024) = some total → min_size_for_parallel ≤ total →
      (pyLower "bytes" = "" ∨ strContains (pyLower "bytes") "bytes" = true) →
      1 ≤ threadsCreated (downloadPlan (some (50 * 1024 * 1024)) "bytes" 8)) :=
  download_plan_threads (some (50 * 1024 * 1024)) "bytes" 8

theorem buildRangesGo_mem_bounds (total p : Nat) (htotal : 1 ≤ total) :
    ∀ (fuel i : Nat) (r : ByteRange), r ∈ buildRangesGo total p fuel i →
      r.start ≤ r.stop ∧ r.stop < total ∧ i * p ≤ r.start := by
  intro fuel
  induction fuel with
  | zero => intro i r hr; simp [buildRangesGo] at hr
  | succ f ih =>
    intro i r hr
    unfold buildRangesGo at hr
    split at hr
    · simp at hr
    next hcond =>
      rcases List.mem_cons.mp hr with rfl | hr
      · refine ⟨?_, ?_, ?_⟩ <;> (dsimp only; omega)
      · obtain ⟨h1, h2, h3⟩ := ih (i + 1) r hr
        refine ⟨h1, h2, ?_⟩
        have : i * p ≤ (i + 1) * p := Nat.mul_le_mul_right p (by omega)
        omega

theorem buildRangesGo_pairwise (total p : Nat) (htotal : 1 ≤ total) (hp : 1 ≤ p) :
    ∀ (fuel i : Nat),
      (buildRangesGo total p fuel i).Pairwise (fun a b => a.stop < b.start) := by
  intro fuel
  induction fuel with
  | zero => intro i; simp [buildRangesGo]
  | succ f ih =>
    intro i
    unfold buildRangesGo
    split
    · simp
    next hcond =>
      refine List.Pairwise.cons ?_ (ih (i + 1))
      intro r hr
      have h3 := (buildRangesGo_mem_bounds total p htotal f (i + 1) r hr).2.2
      have : (i + 1) * p = i * p + p := by rw [add_mul]; omega
      simp only []
      omega

theorem buildRangesGo_head_shape (total p : Nat) :
    ∀ (fuel i : Nat) (r : ByteRange) (rest : List ByteRange),
      buildRangesGo total p fuel i = r :: rest →
      r = ⟨i, i * p, min (i * p + p - 1) (total - 1)⟩ ∧
        i * p ≤ min (i * p + p - 1) (total - 1) := by
  intro fuel i r rest h
  cases fuel with
  | zero => simp [buildRangesGo] at h
  | succ f =>
    unfold buildRangesGo at h
    split at h
    · cases h
    next hcond =>
      have := List.cons.injEq _ _ _ _ ▸ h
      refine ⟨?_, by omega⟩
      exact ((List.cons.inj h).1).symm

theorem buildRangesGo_chain (total p : Nat) (htotal : 1 ≤ total) (hp : 1 ≤ p) :
    ∀ (fuel i : Nat),
      List.Chain' (fun a b => b.start = a.stop + 1) (buildRangesGo total p fuel i) := by
  intro fuel
  induction fuel with
  | zero => intro i; simp [buildRangesGo]
  | succ f ih =>
    intro i
    unfold buildRangesGo
    split
    · simp
    next hcond =>
      rw [List.chain'_cons']
      refine ⟨?_, ih (i + 1)⟩
      intro b hb
      cases hrest : buildRangesGo total p f (i + 1) with
      | nil => rw [hrest] at hb; simp at hb
      | cons r2 rest2 =>
        rw [hrest] at hb
        simp only [List.head?_cons, Option.mem_def, Option.some.injEq] at hb
        obtain ⟨hr2, hnext⟩ := buildRangesGo_head_shape total p f (i + 1) r2 rest2 hrest
        subst hb
        rw [hr2]
        have hmul : (i + 1) * p = i * p + p := by rw [add_mul]; omega
        simp only []
        omega

theorem buildRangesGo_mem_of_lt (total p : Nat) (hp : 1 ≤ p) :
    ∀ (fuel i j : Nat), i ≤ j → j < i + fuel → j * p < total →
      (⟨j, j * p, min (j * p + p - 1) (total - 1)⟩ : ByteRange) ∈
        buildRangesGo total p fuel i := by
  intro fuel
  induction fuel with
  | zero => intro i j h1 h2 h3; omega
  | succ f ih =>
    intro i j h1 h2 h3
    have hip : i * p ≤ j * p := Nat.mul_le_mul_right p h1
    unfold buildRangesGo
    split
    next hcond => omega
    next hcond =>
      rcases Nat.eq_or_lt_of_le h1 with rfl | hlt
      · exact List.mem_cons_self _ _
      · exact List.mem_cons_of_mem _ (ih (i + 1) j (by omega) (by omega) h3)

theorem buildRangesGo_nil_of_ge (total p : Nat) (htotal : 1 ≤ total) :
    ∀ (fuel i : Nat), total ≤ i * p → buildRangesGo total p fuel i = [] := by
  intro fuel i h
  cases fuel with
  | zero => simp [buildRangesGo]
  | succ f =>
    unfold buildRangesGo
    rw [if_pos (by omega)]

theorem buildRangesGo_sum (total p : Nat) (htotal : 1 ≤ total) (hp : 1 ≤ p) :
    ∀ (fuel i : Nat), i * p < total → total ≤ i * p + fuel * p →
      ((buildRangesGo total p fuel i).map (fun r => r.stop + 1 - r.start)).sum =
        total - i * p := by
  intro fuel
  induction fuel with
  | zero => intro i h1 h2; omega
  | succ f ih =>
    intro i h1 h2
    unfold buildRangesGo
    rw [if_neg (by omega)]
    rw [List.map_cons, List.sum_cons]
    have hmul : (i + 1) * p = i * p + p := by rw [add_mul]; omega
    by_cases hnext : (i + 1) * p < total
    · have hrest := ih (i + 1) hnext (by rw [hmul]; rw [Nat.succ_mul] at h2; omega)
      rw [hrest]
      simp only []
      omega
    · have hrest := buildRangesGo_nil_of_ge total p htotal f (i + 1) (by omega)
      rw [hrest]
      simp only [List.map_nil, List.sum_nil]
      omega

theorem buildRangesGo_cover (total p w b : Nat) (ht : 1 ≤ total) (hp : 1 ≤ p)
    (hcov : total ≤ w * p) (hb : b < total) :
    ∃ r ∈ buildRangesGo total p w 0, r.start ≤ b ∧ b ≤ r.stop := by
  have hp0 : 0 < p := by omega
  have hjlt : b / p < w := (Nat.div_lt_iff_lt_mul hp0).mpr (by omega)
  have hmod := Nat.div_add_mod b p
  have hmlt := Nat.mod_lt b hp0
  generalize hj : b / p = j at hjlt hmod
  generalize hm : b % p = m at hmod hmlt
  have hcomm : p * j = j * p := Nat.mul_comm p j
  refine ⟨⟨j, j * p, min (j * p + p - 1) (total - 1)⟩,
    buildRangesGo_mem_of_lt total p hp w 0 j (by omega) (by omega) (by omega), ?_, ?_⟩
  · dsimp only
    omega
  · dsimp only
    omega

theorem part_size_pos (total w : Nat) (ht : 1 ≤ total) (hw : 1 ≤ w) :
    1 ≤ part_size total w := by
  unfold part_size
  have h1 := Nat.div_add_mod (total + w - 1) w
  have h2 := Nat.mod_lt (total + w - 1) (show 0 < w by omega)
  by_contra hc
  push_neg at hc
  interval_cases h : (total + w - 1) / w
  omega

theorem part_size_mul_ge (total w : Nat) (hw : 1 ≤ w) :
    total ≤ w * part_size total w := by
  unfold part_size
  have h1 := Nat.div_add_mod (total + w - 1) w
  have h2 := Nat.mod_lt (total + w - 1) (show 0 < w by omega)
  omega

/-- C10: for every total of at least min_size_for_parallel and at least one
worker, the byte ranges built by download_parallel_with_progress with
part_size = ceil(total / workers) (after the worker-count clamp) are
non-empty, pairwise disjoint, contiguous and in index order, and together
cover exactly bytes 0 through total - 1, so concatenating the parts in index
order reconstructs a file of exactly total bytes. -/
theorem download_ranges_partition (total workers : Nat)
    (htotal : min_size_for_parallel ≤ total) (hw : 1 ≤ workers) :
    (∀ r ∈ downloadRanges total workers, r.start ≤ r.stop ∧ r.stop < total) ∧
    (downloadRanges total workers).Pairwise (fun a b => a.stop < b.start) ∧
    List.Chain' (fun a b => b.start = a.stop + 1) (downloadRanges total workers) ∧
    (∀ r, (downloadRanges total workers).head? = some r → r.start = 0) ∧
    (∀ b, b < total → ∃ r ∈ downloadRanges total workers, r.start ≤ b ∧ b ≤ r.stop) ∧
    ((downloadRanges total workers).map (fun r => r.stop + 1 - r.start)).sum = total := by
  have ht1 : 1 ≤ total := by
    have : 1 ≤ min_size_for_parallel := by norm_num [min_size_for_parallel]
    omega
  have hwc : 1 ≤ clampWorkers workers := clampWorkers_pos workers
  have hp : 1 ≤ part_size total (clampWorkers workers) := part_size_pos total _ ht1 hwc
  have hcover : total ≤ clampWorkers workers * part_size total (clampWorkers workers) :=
    part_size_mul_ge total _ hwc
  unfold downloadRanges
  refine ⟨?_, ?_, ?_, ?_, ?_, ?_⟩
  · intro r hr
    have := buildRangesGo_mem_bounds total (part_size total (clampWorkers workers)) ht1
      (clampWorkers workers) 0 r hr
    exact ⟨this.1, this.2.1⟩
  · exact buildRangesGo_pairwise total _ ht1 hp (clampWorkers workers) 0
  · exact buildRangesGo_chain total _ ht1 hp (clampWorkers workers) 0
  · intro r hr
    cases hb : buildRangesGo total (part_size total (clampWorkers workers))
        (clampWorkers workers) 0 with
    | nil => rw [hb] at hr; cases hr
    | cons r2 rest2 =>
      rw [hb] at hr
      simp only [List.head?_cons, Option.some.injEq] at hr
      subst hr
      have := (buildRangesGo_head_shape total (part_size total (clampWorkers workers))
        (clampWorkers workers) 0 r2 rest2 hb).1
      rw [this]
      dsimp only
      omega
  · intro b hb
    exact buildRangesGo_cover total (part_size total (clampWorkers workers))
      (clampWorkers workers) b ht1 hp hcover hb
  · have := buildRangesGo_sum total (part_size total (clampWorkers workers)) ht1 hp
      (clampWorkers workers) 0 (by omega) (by omega)
    simpa using this

/-- Witness for C10 at a 50MB file with the default eight workers. -/
theorem download_ranges_partition_witness :
    (∀ r ∈ downloadRanges (50 * 1024 * 1024) 8, r.start ≤ r.stop ∧ r.stop < 50 * 1024 * 1024) ∧
    (downloadRanges (50 * 1024 * 1024) 8).Pairwise (fun a b => a.stop < b.start) ∧
    List.Chain' (fun a b => b.start = a.stop + 1) (downloadRanges (50 * 1024 * 1024) 8) ∧
    (∀ r, (downloadRanges (50 * 1024 * 1024) 8).head? = some r → r.start = 0) ∧
    (∀ b, b < 50 * 1024 * 1024 →
      ∃ r ∈ downloadRanges (50 * 1024 * 1024) 8, r.start ≤ b ∧ b ≤ r.stop) ∧
    ((downloadRanges (50 * 1024 * 1024) 8).map (fun r => r.stop + 1 - r.start)).sum =
      50 * 1024 * 1024 :=
  download_ranges_partition (50 * 1024 * 1024) 8 (by norm_num [min_size_for_parallel]) (by norm_num)

/-! ### rbvt.py violin lemmas -/

theorem rat_floor_eq (q : ℚ) (z : ℤ) (h1 : (z : ℚ) ≤ q) (h2 : q < z + 1) :
    Rat.floor q = z := by
  have ha : z ≤ Rat.floor q := Rat.le_floor.mpr h1
  have hb : ¬ (z + 1 ≤ Rat.floor q) := by
    intro hc
    have := Rat.le_floor.mp hc
    push_cast at this
    linarith
  omega

theorem npargminGo_spec (xs : List ℚ) : ∀ (i bi : Nat) (bv : ℚ), ∃ r v,
    npargminGo i bi bv xs = r ∧
    ((r = bi ∧ v = bv) ∨ (∃ k, k < xs.length ∧ r = i + k ∧ v = xs.getD k 0)) ∧
    v ≤ bv ∧ (∀ x ∈ xs, v ≤ x) := by
  induction xs with
  | nil =>
    intro i bi bv
    exact ⟨bi, bv, rfl, Or.inl ⟨rfl, rfl⟩, le_refl bv, by simp⟩
  | cons x xs ih =>
    intro i bi bv
    by_cases hx : x < bv
    · obtain ⟨r, v, heq, hpos, hvb, hall⟩ := ih (i + 1) i x
      refine ⟨r, v, ?_, ?_, ?_, ?_⟩
      · simp only [npargminGo, if_pos hx]; exact heq
      · rcases hpos with ⟨hr, hv⟩ | ⟨k, hk, hr, hv⟩
        · exact Or.inr ⟨0, by simp, by omega, by simpa using hv⟩
        · exact Or.inr ⟨k + 1, by simp; omega, by omega, by simpa using hv⟩
      · exact le_of_lt (lt_of_le_of_lt hvb hx)
      · intro y hy
        rcases List.mem_cons.mp hy with rfl | hy
        · exact hvb
        · exact hall y hy
    · obtain ⟨r, v, heq, hpos, hvb, hall⟩ := ih (i + 1) bi bv
      refine ⟨r, v, ?_, ?_, hvb, ?_⟩
      · simp only [npargminGo, if_neg hx]; exact heq
      · rcases hpos with ⟨hr, hv⟩ | ⟨k, hk, hr, hv⟩
        · exact Or.inl ⟨hr, hv⟩
        · exact Or.inr ⟨k + 1, by simp; omega, by omega, by simpa using hv⟩
      · intro y hy
        rcases List.mem_cons.mp hy with rfl | hy
        · exact le_trans hvb (le_of_not_lt hx)
        · exact hall y hy

theorem npargmin_spec (l : List ℚ) (hne : l ≠ []) :
    npargmin l < l.length ∧ ∀ j, j < l.length → l.getD (npargmin l) 0 ≤ l.getD j 0 := by
  cases l with
  | nil => exact absurd rfl hne
  | cons x xs =>
    obtain ⟨r, v, heq, hpos, hvb, hall⟩ := npargminGo_spec xs 1 0 x
    have hmin : npargmin (x :: xs) = r := heq
    have hval : (x :: xs).getD r 0 = v := by
      rcases hpos with ⟨hr, hv⟩ | ⟨k, hk, hr, hv⟩
      · subst hr; simpa using hv.symm
      · subst hr
        rw [show 1 + k = k + 1 by omega, List.getD_cons_succ]
        exact hv.symm
    have hrlt : r < (x :: xs).length := by
      rcases hpos with ⟨hr, _⟩ | ⟨k, hk, hr, _⟩
      · subst hr; simp
      · subst hr; simp; omega
    rw [hmin]
    refine ⟨hrlt, ?_⟩
    intro j hj
    rw [hval]
    cases j with
    | zero => simpa using hvb
    | succ j' =>
      rw [List.getD_cons_succ]
      have hj' : j' < xs.length := by simpa using hj
      rw [List.getD_eq_getElem xs 0 hj']
      exact hall _ (List.getElem_mem hj')

theorem mem_finitePositive (col : List (Option ℚ)) (x : ℚ) :
    x ∈ finitePositive col ↔ some x ∈ col ∧ 0 < x := by
  unfold finitePositive
  rw [List.mem_filterMap]
  constructor
  · rintro ⟨a, ha, hfa⟩
    cases a with
    | none => simp at hfa
    | some v =>
      simp only [Option.some_bind] at hfa
      by_cases hv : 0 < v
      · rw [if_pos hv] at hfa
        cases hfa
        exact ⟨ha, hv⟩
      · rw [if_neg hv] at hfa
        cases hfa
  · rintro ⟨hmem, hpos⟩
    exact ⟨some x, hmem, by simp [Option.some_bind, if_pos hpos]⟩

theorem mergeSort_le_trans (a b c : ℚ) (h1 : decide (a ≤ b) = true)
    (h2 : decide (b ≤ c) = true) : decide (a ≤ c) = true := by
  simp only [decide_eq_true_eq] at *
  exact le_trans h1 h2

theorem mergeSort_le_total (a b : ℚ) : (decide (a ≤ b) || decide (b ≤ a)) = true := by
  simp only [Bool.or_eq_true, decide_eq_true_eq]
  exact le_total a b

theorem sortedSamples_head (s : List ℚ) (hne : s ≠ []) :
    (s.mergeSort (fun a b => decide (a ≤ b))).getD 0 0 ∈ s ∧
    ∀ x ∈ s, (s.mergeSort (fun a b => decide (a ≤ b))).getD 0 0 ≤ x := by
  have hperm := List.mergeSort_perm s (fun a b => decide (a ≤ b))
  have hsorted := List.sorted_mergeSort mergeSort_le_trans mergeSort_le_total s
  cases hss : s.mergeSort (fun a b => decide (a ≤ b)) with
  | nil =>
    rw [hss] at hperm
    exact absurd (List.Perm.eq_nil hperm.symm) hne
  | cons h t =>
    rw [hss] at hperm hsorted
    simp only [List.getD_cons_zero]
    constructor
    · exact hperm.mem_iff.mp (List.mem_cons_self h t)
    · intro x hx
      rcases List.mem_cons.mp (hperm.mem_iff.mpr hx) with rfl | hx2
      · exact le_refl x
      · have := List.rel_of_pairwise_cons hsorted hx2
        simpa using this

theorem sortedSamples_last (s : List ℚ) (hne : s ≠ []) :
    (s.mergeSort (fun a b => decide (a ≤ b))).getD (s.length - 1) 0 ∈ s ∧
    ∀ x ∈ s, x ≤ (s.mergeSort (fun a b => decide (a ≤ b))).getD (s.length - 1) 0 := by
  have hperm := List.mergeSort_perm s (fun a b => decide (a ≤ b))
  have hsorted := List.sorted_mergeSort mergeSort_le_trans mergeSort_le_total s
  have hlen : (s.mergeSort (fun a b => decide (a ≤ b))).length = s.length := hperm.length_eq
  have hslen : 1 ≤ s.length := by
    cases s with
    | nil => exact absurd rfl hne
    | cons a l => simp
  have hidx : s.length - 1 < (s.mergeSort (fun a b => decide (a ≤ b))).length := by omega
  rw [List.getD_eq_getElem _ 0 hidx]
  constructor
  · exact hperm.mem_iff.mp (List.getElem_mem hidx)
  · intro x hx
    obtain ⟨i, hi, hix⟩ := List.mem_iff_getElem.mp (hperm.mem_iff.mpr hx)
    rcases Nat.lt_or_ge i (s.length - 1) with hlt | hge
    · have := (List.pairwise_iff_getElem.mp hsorted) i (s.length - 1) hi hidx hlt
      rw [hix] at this
      simpa using this
    · have hieq : i = s.length - 1 := by omega
      subst hieq
      exact le_of_eq hix.symm

theorem nppercentile_zero (s : List ℚ) :
    nppercentile s 0 = (s.mergeSort (fun a b => decide (a ≤ b))).getD 0 0 := by
  simp only [nppercentile]
  have h1 : (0 : ℚ) * ((((s.mergeSort (fun a b => decide (a ≤ b))).length : ℚ)) - 1) / 100
      = 0 := by ring
  rw [h1]
  have h2 : Rat.floor (0 : ℚ) = 0 := rat_floor_eq 0 0 (by norm_num) (by norm_num)
  rw [h2]
  norm_num

theorem nppercentile_hundred (s : List ℚ) (hne : s ≠ []) :
    nppercentile s 100 = (s.mergeSort (fun a b => decide (a ≤ b))).getD (s.length - 1) 0 := by
  have hlen : (s.mergeSort (fun a b => decide (a ≤ b))).length = s.length :=
    (List.mergeSort_perm s _).length_eq
  have hpos : 1 ≤ s.length := by
    cases s with
    | nil => exact absurd rfl hne
    | cons a l => simp
  simp only [nppercentile]
  rw [hlen]
  have h1 : (100 : ℚ) * ((s.length : ℚ) - 1) / 100 = (s.length : ℚ) - 1 := by ring
  rw [h1]
  have h2 : ((s.length : ℚ) - 1) = ((s.length - 1 : ℕ) : ℚ) := by
    push_cast [Nat.cast_sub hpos]
    ring
  rw [h2]
  have h3 : Rat.floor (((s.length - 1 : ℕ) : ℚ)) = ((s.length - 1 : ℕ) : ℤ) := by
    refine rat_floor_eq _ _ (by push_cast; exact le_refl _) (by push_cast; norm_num)
  rw [h3]
  simp

/-- C6: for every total-background matrix, wavelength array and center
wavelength, the percentile component of _make_violin_source selects the
column whose wavelength is nearest the center wavelength, keeps only the
finite strictly positive samples of that column, and returns the 0th, 25th,
50th, 75th and 100th percentiles of those samples when at least 5 remain and
NaN (none) for all five values otherwise; moreover the 0th and 100th
percentiles are the minimum and maximum of the retained samples. -/
theorem make_violin_quartiles_spec (m : List (List (Option ℚ))) (wave_arr : List ℚ) (c : ℚ)
    (hw : wave_arr ≠ []) :
    (violinIdx wave_arr c < wave_arr.length ∧
      ∀ j, j < wave_arr.length →
        |wave_arr.getD (violinIdx wave_arr c) 0 - c| ≤ |wave_arr.getD j 0 - c|) ∧
    (∀ x, x ∈ violinSamples m wave_arr c ↔
      (some x ∈ violinColumn m (violinIdx wave_arr c) ∧ 0 < x)) ∧
    ((violinSamples m wave_arr c).length < 5 →
      make_violin_quartiles m wave_arr c = (none, none, none, none, none)) ∧
    (5 ≤ (violinSamples m wave_arr c).length →
      make_violin_quartiles m wave_arr c =
        (some (nppercentile (violinSamples m wave_arr c) 0),
         some (nppercentile (violinSamples m wave_arr c) 25),
         some (nppercentile (violinSamples m wave_arr c) 50),
         some (nppercentile (violinSamples m wave_arr c) 75),
         some (nppercentile (violinSamples m wave_arr c) 100)) ∧
      nppercentile (violinSamples m wave_arr c) 0 ∈ violinSamples m wave_arr c ∧
      (∀ x ∈ violinSamples m wave_arr c,
        nppercentile (violinSamples m wave_arr c) 0 ≤ x) ∧
      nppercentile (violinSamples m wave_arr c) 100 ∈ violinSamples m wave_arr c ∧
      (∀ x ∈ violinSamples m wave_arr c,
        x ≤ nppercentile (violinSamples m wave_arr c) 100)) := by
  refine ⟨?_, ?_, ?_, ?_⟩
  · have hmapne : wave_arr.map (fun w => |w - c|) ≠ [] := by simpa using hw
    obtain ⟨hlt, hle⟩ := npargmin_spec (wave_arr.map (fun w => |w - c|)) hmapne
    rw [List.length_map] at hlt
    simp only [violinIdx]
    refine ⟨hlt, ?_⟩
    intro j hj
    have h2 := hle j (by simpa using hj)
    rw [List.getD_eq_getElem _ _ (by simpa using hlt),
      List.getD_eq_getElem _ _ (by simpa using hj), List.getElem_map, List.getElem_map] at h2
    rw [List.getD_eq_getElem _ _ hlt, List.getD_eq_getElem _ _ hj]
    exact h2
  · intro x
    exact mem_finitePositive (violinColumn m (violinIdx wave_arr c)) x
  · intro hlt
    simp only [make_violin_quartiles]
    rw [if_pos hlt]
  · intro hge
    have hne : violinSamples m wave_arr c ≠ [] := by
      intro hnil
      rw [hnil] at hge
      simp at hge
    refine ⟨?_, ?_, ?_, ?_, ?_⟩
    · simp only [make_violin_quartiles]
      rw [if_neg (by omega)]
    · rw [nppercentile_zero]
      exact (sortedSamples_head (violinSamples m wave_arr c) hne).1
    · intro x hx
      rw [nppercentile_zero]
      exact (sortedSamples_head (violinSamples m wave_arr c) hne).2 x hx
    · rw [nppercentile_hundred _ hne]
      exact (sortedSamples_last (violinSamples m wave_arr c) hne).1
    · intro x hx
      rw [nppercentile_hundred _ hne]
      exact (sortedSamples_last (violinSamples m wave_arr c) hne).2 x hx

/-- Witness for C6: a six-day column at wavelength 1 with one negative
sample, leaving exactly five finite positive samples. -/
theorem make_violin_quartiles_spec_witness :
    (violinIdx [1, 2] 1 < [(1 : ℚ), 2].length ∧
      ∀ j, j < [(1 : ℚ), 2].length →
        |[(1 : ℚ), 2].getD (violinIdx [1, 2] 1) 0 - 1| ≤ |[(1 : ℚ), 2].getD j 0 - 1|) ∧
    (∀ x, x ∈ violinSamples [[some 3], [some 1], [some 2], [some 5], [some 4], [some (-1)]]
        [1, 2] 1 ↔
      (some x ∈ violinColumn [[some 3], [some 1], [some 2], [some 5], [some 4], [some (-1)]]
        (violinIdx [1, 2] 1) ∧ 0 < x)) ∧
    ((violinSamples [[some 3], [some 1], [some 2], [some 5], [some 4], [some (-1)]]
        [1, 2] 1).length < 5 →
      make_violin_quartiles [[some 3], [some 1], [some 2], [some 5], [some 4], [some (-1)]]
        [1, 2] 1 = (none, none, none, none, none)) ∧
    (5 ≤ (violinSamples [[some 3], [some 1], [some 2], [some 5], [some 4], [some (-1)]]
        [1, 2] 1).length →
      make_violin_quartiles [[some 3], [some 1], [some 2], [some 5], [some 4], [some (-1)]]
        [1, 2] 1 =
        (some (nppercentile (violinSamples [[some 3], [some 1], [some 2], [some 5], [some 4],
            [some (-1)]] [1, 2] 1) 0),
         some (nppercentile (violinSamples [[some 3], [some 1], [some 2], [some 5], [some 4],
            [some (-1)]] [1, 2] 1) 25),
         some (nppercentile (violinSamples [[some 3], [some 1], [some 2], [some 5], [some 4],
            [some (-1)]] [1, 2] 1) 50),
         some (nppercentile (violinSamples [[some 3], [some 1], [some 2], [some 5], [some 4],
            [some (-1)]] [1, 2] 1) 75),
         some (nppercentile (violinSamples [[some 3], [some 1], [some 2], [some 5], [some 4],
            [some (-1)]] [1, 2] 1) 100)) ∧
      nppercentile (violinSamples [[some 3], [some 1], [some 2], [some 5], [some 4],
        [some (-1)]] [1, 2] 1) 0 ∈ violinSamples [[some 3], [some 1], [some 2], [some 5],
        [some 4], [some (-1)]] [1, 2] 1 ∧
      (∀ x ∈ violinSamples [[some 3], [some 1], [some 2], [some 5], [some 4], [some (-1)]]
          [1, 2] 1,
        nppercentile (violinSamples [[some 3], [some 1], [some 2], [some 5], [some 4],
          [some (-1)]] [1, 2] 1) 0 ≤ x) ∧
      nppercentile (violinSamples [[some 3], [some 1], [some 2], [some 5], [some 4],
        [some (-1)]] [1, 2] 1) 100 ∈ violinSamples [[some 3], [some 1], [some 2], [some 5],
        [some 4], [some (-1)]] [1, 2] 1 ∧
      (∀ x ∈ violinSamples [[some 3], [some 1], [some 2], [some 5], [some 4], [some (-1)]]
          [1, 2] 1,
        x ≤ nppercentile (violinSamples [[some 3], [some 1], [some 2], [some 5], [some 4],
          [some (-1)]] [1, 2] 1) 100)) :=
  make_violin_quartiles_spec [[some 3], [some 1], [some 2], [some 5], [some 4], [some (-1)]]
    [1, 2] 1 (by simp)

/-- C1: background.read_bkg_data parses a cache file as one fixed-schema
binary record - a header of double RA at byte 0, double DEC at byte 8, three
doubles pos at byte 16, SL_ABS_NWAVE doubles nonzodi_bg at byte 40, and 366
32-bit integers date_map following them - followed, starting immediately
after the header of 8*(2+3+nwave)+4*366 bytes, by per-day records each
holding SL_ABS_NWAVE doubles zodi_bg then SL_ABS_NWAVE doubles
stray_light_bg; the calendar is exactly the day indices d in 0..365 with
date_map[d] >= 0 in increasing order, and the per-day arrays have one row
per such day. -/
theorem read_bkg_data_spec (nwave : Nat) (file : List Nat) :
    (read_bkg_data nwave file).pix_ra = byteSlice file 0 8 ∧
    (read_bkg_data nwave file).pix_dec = byteSlice file 8 8 ∧
    (read_bkg_data nwave file).upos = byteSlice file 16 24 ∧
    (read_bkg_data nwave file).nonzodi_bg = byteSlice file 40 (8 * nwave) ∧
    (read_bkg_data nwave file).date_map =
      (List.range 366).map (fun d => decodeI32 (byteSlice file (40 + 8 * nwave + 4 * d) 4)) ∧
    (∀ d, d ∈ (read_bkg_data nwave file).calendar ↔
      d < 366 ∧ 0 ≤ decodeI32 (byteSlice file (40 + 8 * nwave + 4 * d) 4)) ∧
    (read_bkg_data nwave file).calendar.Sorted (· < ·) ∧
    (read_bkg_data nwave file).zodi_bg.length = (read_bkg_data nwave file).calendar.length ∧
    (read_bkg_data nwave file).stray_light_bg.length =
      (read_bkg_data nwave file).calendar.length ∧
    (read_bkg_data nwave file).zodi_bg =
      (List.range (read_bkg_data nwave file).calendar.length).map (fun k =>
        byteSlice file ((8 * (2 + 3 + nwave) + 4 * 366) + (2 * (8 * nwave)) * k)
          (8 * nwave)) ∧
    (read_bkg_data nwave file).stray_light_bg =
      (List.range (read_bkg_data nwave file).calendar.length).map (fun k =>
        byteSlice file ((8 * (2 + 3 + nwave) + 4 * 366) + (2 * (8 * nwave)) * k + 8 * nwave)
          (8 * nwave)) := by
  refine ⟨rfl, rfl, rfl, rfl, ?_, ?_, ?_, by simp [read_bkg_data], by simp [read_bkg_data],
    ?_, ?_⟩
  · simp only [read_bkg_data, date_map_entry, iday_index_offset, nonzodi_bg_offset,
      upos_offset, pix_dec_offset, pix_ra_offset]
  · intro d
    simp only [read_bkg_data, List.mem_filter, List.mem_range, decide_eq_true_eq,
      date_map_entry, iday_index_offset, nonzodi_bg_offset, upos_offset, pix_dec_offset,
      pix_ra_offset]
  · simp only [read_bkg_data]
    exact (List.pairwise_lt_range 366).filter _
  · simp only [read_bkg_data]
    refine List.map_congr_left ?_
    intro k hk
    simp only [nonzodi_pix_itemsize, iday_index_offset, nonzodi_bg_offset, upos_offset,
      pix_dec_offset, pix_ra_offset, zodi_sl_itemsize]
    congr 1
    ring
  · simp only [read_bkg_data]
    refine List.map_congr_left ?_
    intro k hk
    simp only [nonzodi_pix_itemsize, iday_index_offset, nonzodi_bg_offset, upos_offset,
      pix_dec_offset, pix_ra_offset, zodi_sl_itemsize]
    congr 1
    ring
